import Mathlib

/-!
Verification of the mixed-variable acquisition-function optimizer
(`optuna/_gp/optim_mixed.py`) against its natural-language specification.

The module is shallowly embedded over ℚ:

* Normalized parameter vectors are `List ℚ`.
* The acquisition evaluator (`eval_acqf_no_grad` / `eval_acqf_with_grad`),
  an external pure black box in the source, is a parameter `acqf : Vec → ℚ`.
* The external numerical solvers are deterministic oracles:
  `scipy.optimize.fmin_l_bfgs_b` becomes `lbfgs : Vec → LbfgsResult`
  (the solver result is a deterministic function of the objective, which is
  determined by the start vector once `acqf`, the continuous indices and the
  lengthscales are fixed), and `scipy.optimize.minimize_scalar` (Brent)
  becomes `brent : Vec → ℕ → ℚ` giving the returned abscissa `res.x` for a
  line search started at a given vector and coordinate index (the bracket,
  tolerance and interpolated objective are determined by those).
* Python exceptions are modelled with `Except PyError`:
  the seed-count `assert` in `optimize_acqf_mixed` raises `seedAssert`,
  the on-grid `assert` in `_discrete_line_search` raises `gridAssert`,
  `np.argmax` on an empty array raises `emptyArgmax`, and division of the
  softmax weights by a zero sum (NaN probabilities, which make the subsequent
  `rng.choice` raise) is modelled as `probsError`.
* The memoization cache of `_discrete_line_search` is observationally
  equivalent to direct evaluation because the evaluator is pure (a contract
  the spec states explicitly); the seeded entry for the current grid position
  holds the *passed-in* `initial_fval`, which the embedding preserves.
* The parameter classifier (continuous indices, per-index choice grids,
  per-index `xtol`) lives partly in external helpers (`search_space.py`,
  not part of this module); its outputs are taken as inputs here.  `xtol`
  only parameterizes the Brent oracle and is absorbed into it.
-/

namespace OptimMixed

/-- A normalized parameter vector (`np.ndarray` of shape `(dim,)`). -/
abbrev Vec := List ℚ

/-- Scale types from `optuna._gp.search_space.ScaleType`; the optimizer only
ever tests equality with `CATEGORICAL`. -/
inductive ScaleType where
  | linear
  | log
  | categorical
deriving DecidableEq, Repr

/-- Python exceptions that this module can raise, by raise site. -/
inductive PyError where
  /-- The `assert len(given_initial_xs) <= n_local_search - 1` in
  `optimize_acqf_mixed`. -/
  | seedAssert
  /-- The `assert initial_params[param_idx] == grids[current_choice_i]` in
  `_discrete_line_search`. -/
  | gridAssert
  /-- `np.argmax` applied to an empty array (ValueError). -/
  | emptyArgmax
  /-- NaN probabilities after dividing the softmax weights by a zero sum
  (the subsequent `rng.choice` raises ValueError). -/
  | probsError
deriving DecidableEq, Repr

/-- Result of `scipy.optimize.fmin_l_bfgs_b`: the minimizer (over the scaled
continuous coordinates), the attained objective value, and `info["nit"]`. -/
structure LbfgsResult where
  x : List ℚ
  negFval : ℚ
  nit : ℕ
deriving DecidableEq, Repr

/-- One discrete parameter as prepared by `local_search_mixed`: its position
in the vector, its scale type, and its admissible normalized choices. -/
structure DiscreteItem where
  idx : ℕ
  scaleType : ScaleType
  choices : List ℚ
deriving DecidableEq, Repr

/-- Write `vals` into `v` at positions `idxs`
(`normalized_params[continuous_indices] = ...`). -/
def setIndices : Vec → List ℕ → List ℚ → Vec
  | v, i :: is, x :: xs => setIndices (v.set i x) is xs
  | v, _, _ => v

/-- `np.argmax`: index of the first maximal element, `none` on the empty
list (where NumPy raises ValueError). -/
def argmaxIdx : List ℚ → Option ℕ
  | [] => none
  | x :: xs =>
    match argmaxIdx xs with
    | none => some 0
    | some j => if x < xs.getD j 0 then some (j + 1) else some 0

/-- `np.searchsorted(grids, x)` with `side='left'` on a sorted grid: the
number of grid values strictly below `x`. -/
def searchsorted (grids : List ℚ) (x : ℚ) : ℕ :=
  (grids.filter (fun g => g < x)).length

/-- The clipped bracket position of `find_nearest_index`:
`i = int(np.clip(np.searchsorted(grids, x), 1, len(grids) - 1))`. -/
def clipIdx (grids : List ℚ) (x : ℚ) : ℕ :=
  min (max (searchsorted grids x) 1) (grids.length - 1)

/-- `find_nearest_index` from `_discrete_line_search`:
`i - 1 if abs(x - grids[i-1]) < abs(x - grids[i]) else i` for the clipped
bracket position `i`. -/
def find_nearest_index (grids : List ℚ) (x : ℚ) : ℕ :=
  if |x - grids.getD (clipIdx grids x - 1) 0| < |x - grids.getD (clipIdx grids x) 0|
  then clipIdx grids x - 1 else clipIdx grids x

/-- `_gradient_ascent`.  The call to `fmin_l_bfgs_b` is the oracle result
`res`; the function accepts it only on `-neg_fval_opt > initial_fval and
info["nit"] > 0`, writing `scaled_cont_x_opt * lengthscale` back into the
continuous coordinates, and otherwise returns the inputs unchanged. -/
def gradient_ascent (contIdx : List ℕ) (lengthscale : List ℚ)
    (res : LbfgsResult) (p : Vec) (fval : ℚ) : Vec × ℚ × Bool :=
  if contIdx = [] then (p, fval, false)
  else if fval < -res.negFval ∧ 0 < res.nit then
    (setIndices p contIdx (List.zipWith (fun a b => a * b) res.x lengthscale),
      -res.negFval, true)
  else (p, fval, false)

/-- The candidate vectors `all_params` of `_exhaustive_search`: the input
vector with the optimized coordinate replaced by every choice except its
current value (`choices[choices != initial_params[param_idx]]`). -/
def exhaustive_candidates (p : Vec) (paramIdx : ℕ) (choices : List ℚ) :
    List Vec :=
  (choices.filter (fun c => c ≠ p.getD paramIdx 0)).map
    (fun c => p.set paramIdx c)

/-- `_exhaustive_search`: evaluate every choice except the current value,
take the argmax, accept on strict improvement.  `np.argmax` on an empty
candidate set (singleton choice set whose unique choice is the current
value) raises, modelled as `.error .emptyArgmax`. -/
def exhaustive_search (acqf : Vec → ℚ) (p : Vec) (fval : ℚ)
    (paramIdx : ℕ) (choices : List ℚ) : Except PyError (Vec × ℚ × Bool) :=
  match argmaxIdx ((exhaustive_candidates p paramIdx choices).map acqf) with
  | none => .error .emptyArgmax
  | some bestIdx =>
    if fval < ((exhaustive_candidates p paramIdx choices).map acqf).getD bestIdx 0
    then
      .ok ((exhaustive_candidates p paramIdx choices).getD bestIdx p,
        ((exhaustive_candidates p paramIdx choices).map acqf).getD bestIdx 0,
        true)
    else .ok (p, fval, false)

/-- `fval_opt = -negative_acqf_with_cache(opt_idx)` in
`_discrete_line_search`: the memoization cache is seeded with
`-initial_fval` at the current grid position, every other position is a
true evaluation (double negation resolved). -/
def line_search_fval (acqf : Vec → ℚ) (p : Vec) (fval : ℚ) (paramIdx : ℕ)
    (grids : List ℚ) (optIdx : ℕ) : ℚ :=
  if optIdx = find_nearest_index grids (p.getD paramIdx 0) then fval
  else acqf (p.set paramIdx (grids.getD optIdx 0))

/-- `_discrete_line_search`.  `brentX` is the abscissa `res.x` returned by
the Brent oracle; `opt_idx = find_nearest_index(res.x)`.  The
singleton-grid early return precedes the on-grid assertion. -/
def discrete_line_search (acqf : Vec → ℚ) (brentX : ℚ) (p : Vec) (fval : ℚ)
    (paramIdx : ℕ) (grids : List ℚ) : Except PyError (Vec × ℚ × Bool) :=
  if grids.length = 1 then .ok (p, fval, false)
  else if p.getD paramIdx 0
      ≠ grids.getD (find_nearest_index grids (p.getD paramIdx 0)) 0 then
    .error .gridAssert
  else if find_nearest_index grids brentX
        ≠ find_nearest_index grids (p.getD paramIdx 0)
      ∧ fval < line_search_fval acqf p fval paramIdx grids
          (find_nearest_index grids brentX) then
    .ok (p.set paramIdx (grids.getD (find_nearest_index grids brentX) 0),
      line_search_fval acqf p fval paramIdx grids
        (find_nearest_index grids brentX), true)
  else .ok (p, fval, false)

/-- `_local_search_discrete`: dispatch to exhaustive search for categorical
scale type or at most 16 choices (`MAX_INT_EXHAUSTIVE_SEARCH_PARAMS`),
otherwise to the discrete line search. -/
def local_search_discrete (acqf : Vec → ℚ) (brentX : ℚ) (p : Vec) (fval : ℚ)
    (it : DiscreteItem) : Except PyError (Vec × ℚ × Bool) :=
  if it.scaleType = ScaleType.categorical ∨ it.choices.length ≤ 16 then
    exhaustive_search acqf p fval it.idx it.choices
  else
    discrete_line_search acqf brentX p fval it.idx it.choices

/-- The `last_changed_param` variable of `local_search_mixed`:
`None`, the sentinel `CONTINUOUS = -1`, or a discrete parameter index. -/
inductive LastChanged where
  | noneYet
  | cont
  | disc (i : ℕ)
deriving DecidableEq, Repr

/-- Which `return` statement (or the loop-cap fall-through) produced the
result of `local_search_mixed`.  `capReached` corresponds to the fall
through the `for` loop, where the source logs the non-fatal warning
`"local_search_mixed: Local search did not converge."`. -/
inductive ExitKind where
  | cycleComplete
  | neverImproved
  | capReached
deriving DecidableEq, Repr

/-- Loop state of `local_search_mixed`: `last_changed_param`,
`best_normalized_params` and `best_fval`. -/
structure LSState where
  lc : LastChanged
  p : Vec
  f : ℚ
deriving DecidableEq, Repr

/-- The inner `for i, choices, xtol in zip(...)` loop of
`local_search_mixed`: `.inl` is the early `return` taken when the next
discrete index is the one that produced the most recent improvement,
`.inr` is the state after finishing all discrete indices. -/
def sweepDiscrete (acqf : Vec → ℚ) (brent : Vec → ℕ → ℚ) :
    List DiscreteItem → LSState → Except PyError (Sum (Vec × ℚ) LSState)
  | [], st => .ok (.inr st)
  | it :: rest, st =>
    if st.lc = LastChanged.disc it.idx then .ok (.inl (st.p, st.f))
    else
      match local_search_discrete acqf (brent st.p it.idx) st.p st.f it with
      | .error e => .error e
      | .ok (p, f, upd) =>
        sweepDiscrete acqf brent rest
          ⟨if upd then LastChanged.disc it.idx else st.lc, p, f⟩

/-- One iteration of the outer `for _ in range(max_iter)` loop:
the `last_changed_param == CONTINUOUS` check, the gradient ascent,
the discrete sweep, and the `last_changed_param is None` check.
`.inl` carries an early `return` together with which one it was. -/
def sweepOnce (acqf : Vec → ℚ) (lbfgs : Vec → LbfgsResult)
    (brent : Vec → ℕ → ℚ) (contIdx : List ℕ) (lengthscale : List ℚ)
    (items : List DiscreteItem) (st : LSState) :
    Except PyError (Sum (Vec × ℚ × ExitKind) LSState) :=
  if st.lc = LastChanged.cont then
    .ok (.inl (st.p, st.f, ExitKind.cycleComplete))
  else
    match sweepDiscrete acqf brent items
        ⟨if (gradient_ascent contIdx lengthscale (lbfgs st.p) st.p st.f).2.2
          then LastChanged.cont else st.lc,
         (gradient_ascent contIdx lengthscale (lbfgs st.p) st.p st.f).1,
         (gradient_ascent contIdx lengthscale (lbfgs st.p) st.p st.f).2.1⟩ with
    | .error e => .error e
    | .ok (.inl (q, g)) => .ok (.inl (q, g, ExitKind.cycleComplete))
    | .ok (.inr st1) =>
      if st1.lc = LastChanged.noneYet then
        .ok (.inl (st1.p, st1.f, ExitKind.neverImproved))
      else .ok (.inr st1)

/-- The outer loop of `local_search_mixed`, fuel = remaining iterations of
`range(max_iter)`; exhausting the fuel is the warning fall-through. -/
def lsLoop (acqf : Vec → ℚ) (lbfgs : Vec → LbfgsResult)
    (brent : Vec → ℕ → ℚ) (contIdx : List ℕ) (lengthscale : List ℚ)
    (items : List DiscreteItem) :
    ℕ → LSState → Except PyError (Vec × ℚ × ExitKind)
  | 0, st => .ok (st.p, st.f, ExitKind.capReached)
  | Nat.succ n, st =>
    match sweepOnce acqf lbfgs brent contIdx lengthscale items st with
    | .error e => .error e
    | .ok (.inl r) => .ok r
    | .ok (.inr st1) => lsLoop acqf lbfgs brent contIdx lengthscale items n st1

/-- Reference iteration of `sweepOnce`: run up to `n` sweeps, stopping at
the first early `return` (`.inl`) or error; `.inr` means all `n` sweeps
ran without an early return. -/
def sweepIter (acqf : Vec → ℚ) (lbfgs : Vec → LbfgsResult)
    (brent : Vec → ℕ → ℚ) (contIdx : List ℕ) (lengthscale : List ℚ)
    (items : List DiscreteItem) :
    ℕ → LSState → Except PyError (Sum (Vec × ℚ × ExitKind) LSState)
  | 0, st => .ok (.inr st)
  | Nat.succ n, st =>
    match sweepOnce acqf lbfgs brent contIdx lengthscale items st with
    | .error e => .error e
    | .ok (.inl r) => .ok (.inl r)
    | .ok (.inr st1) =>
      sweepIter acqf lbfgs brent contIdx lengthscale items n st1

/-- `local_search_mixed`: evaluate the start point and run the outer loop
(`max_iter` defaults to 100 in the source). -/
def local_search_mixed (acqf : Vec → ℚ) (lbfgs : Vec → LbfgsResult)
    (brent : Vec → ℕ → ℚ) (contIdx : List ℕ) (lengthscale : List ℚ)
    (items : List DiscreteItem) (maxIter : ℕ) (p0 : Vec) :
    Except PyError (Vec × ℚ × ExitKind) :=
  lsLoop acqf lbfgs brent contIdx lengthscale items maxIter
    ⟨LastChanged.noneYet, p0, acqf p0⟩

/-- The unnormalized weights of the softmax weighting step of
`optimize_acqf_mixed`: `probs = np.exp(f_vals - f_vals[max_i])` followed by
`probs[max_i] = 0.0`.  `expF` abstracts `np.exp`.  A zero weight sum makes
the normalization produce NaN probabilities, on which the subsequent
`rng.choice` raises; `softmax_probs` models that as `none`. -/
def softmax_weights (expF : ℚ → ℚ) (fvals : List ℚ) (maxI : ℕ) : List ℚ :=
  (fvals.map (fun f => expF (f - fvals.getD maxI 0))).set maxI 0

/-- Normalization `probs /= probs.sum()` of the softmax weighting step;
`none` models the degenerate zero-sum case. -/
def softmax_probs (expF : ℚ → ℚ) (fvals : List ℚ) (maxI : ℕ) :
    Option (List ℚ) :=
  if (softmax_weights expF fvals maxI).sum = 0 then none
  else some ((softmax_weights expF fvals maxI).map
    (fun q => q / (softmax_weights expF fvals maxI).sum))

/-- The final loop of `optimize_acqf_mixed`: run `local_search_mixed` from
every start point, keeping the strictly best `(x, f)` seen. -/
def run_local_searches (acqf : Vec → ℚ) (lbfgs : Vec → LbfgsResult)
    (brent : Vec → ℕ → ℚ) (contIdx : List ℕ) (lengthscale : List ℚ)
    (items : List DiscreteItem) :
    List Vec → Vec × ℚ → Except PyError (Vec × ℚ)
  | [], best => .ok best
  | xg :: restStarts, best =>
    match local_search_mixed acqf lbfgs brent contIdx lengthscale items
        100 xg with
    | .error e => .error e
    | .ok (x, f, _) =>
      run_local_searches acqf lbfgs brent contIdx lengthscale items
        restStarts (if best.2 < f then (x, f) else best)

/-- `optimize_acqf_mixed`.  `sampledXs` is the pool drawn by the external
`sample_normalized_params`, and `remainingIdxs` is the outcome of
`rng.choice` (both random sources are oracles).  The seed-count assertion
runs before the pool is sampled or evaluated; the softmax probabilities are
computed (and can fail) before any local search starts. -/
def optimize_acqf_mixed (acqf : Vec → ℚ) (expF : ℚ → ℚ)
    (lbfgs : Vec → LbfgsResult) (brent : Vec → ℕ → ℚ)
    (contIdx : List ℕ) (lengthscale : List ℚ) (items : List DiscreteItem)
    (givenInitialXs : List Vec) (nLocalSearch : ℤ)
    (sampledXs : List Vec) (remainingIdxs : List ℕ) :
    Except PyError (Vec × ℚ) :=
  if (givenInitialXs.length : ℤ) ≤ nLocalSearch - 1 then
    match argmaxIdx (sampledXs.map acqf) with
    | none => .error .emptyArgmax
    | some maxI =>
      match softmax_probs expF (sampledXs.map acqf) maxI with
      | none => .error .probsError
      | some _ =>
        run_local_searches acqf lbfgs brent contIdx lengthscale items
          (sampledXs.getD maxI []
            :: (remainingIdxs.map (fun i => sampledXs.getD i [])
              ++ givenInitialXs))
          (sampledXs.getD maxI [], (sampledXs.map acqf).getD maxI 0)
  else .error .seedAssert

/-! Concrete evaluators and solver oracles used to instantiate the theorems
below on executable inputs. -/

/-- A constant-zero acquisition function. -/
def zeroAcqf : Vec → ℚ := fun _ => 0

/-- A constant acquisition function with value 5. -/
def constAcqf : Vec → ℚ := fun _ => 5

/-- The acquisition function `f(x) = x₀` on one continuous dimension. -/
def firstCoordAcqf : Vec → ℚ := fun v => v.getD 0 0

/-- The acquisition function `f(x) = 1 - x₀` on one continuous dimension. -/
def oneMinusAcqf : Vec → ℚ := fun v => 1 - v.getD 0 0

/-- A box-constrained solver oracle for `oneMinusAcqf` (lengthscale 1) that
halves its start point each call: from `z₀` it returns `z₀ / 2` with the
true objective value `-(1 - z₀/2)` and one completed iteration.  It is
consistent with the solver contract yet improves again when restarted from
its own output. -/
def halvingLbfgs : Vec → LbfgsResult :=
  fun v => ⟨[v.getD 0 0 / 2], v.getD 0 0 / 2 - 1, 1⟩

/-- A solver oracle that reports zero iterations (no progress). -/
def idleLbfgs : Vec → LbfgsResult := fun _ => ⟨[], 0, 0⟩

/-- A Brent oracle that always reports abscissa 0. -/
def zeroBrent : Vec → ℕ → ℚ := fun _ _ => 0

/-- An exponential oracle adequate on the only argument the degenerate
softmax case uses: `exp 0 = 1`. -/
def oneExp : ℚ → ℚ := fun _ => 1

/-! Helper lemmas. -/

/-- A singleton choice set whose unique choice is the current coordinate
value yields an empty exhaustive-search candidate set. -/
theorem exhaustive_candidates_singleton (p : Vec) (i : ℕ) :
    exhaustive_candidates p i [p.getD i 0] = [] := by
  simp [exhaustive_candidates]

/-- `_gradient_ascent` never returns a value below its input value. -/
theorem gradient_ascent_mono (contIdx : List ℕ) (lengthscale : List ℚ)
    (res : LbfgsResult) (p : Vec) (fval : ℚ) :
    fval ≤ (gradient_ascent contIdx lengthscale res p fval).2.1 := by
  unfold gradient_ascent
  by_cases hc : contIdx = []
  · simp [hc]
  · by_cases hcond : fval < -res.negFval ∧ 0 < res.nit
    · simp only [hc, if_false, if_pos hcond]
      exact hcond.1.le
    · simp [hc, hcond]

/-- `_exhaustive_search` never returns a value below its input value. -/
theorem exhaustive_search_mono (acqf : Vec → ℚ) (p : Vec) (fval : ℚ)
    (paramIdx : ℕ) (choices : List ℚ) (q : Vec) (g : ℚ) (b : Bool)
    (h : exhaustive_search acqf p fval paramIdx choices = .ok (q, g, b)) :
    fval ≤ g := by
  unfold exhaustive_search at h
  split at h
  · exact Except.noConfusion h
  · split at h
    · rename_i hlt
      simp only [Except.ok.injEq, Prod.mk.injEq] at h
      rw [← h.2.1]
      exact hlt.le
    · simp only [Except.ok.injEq, Prod.mk.injEq] at h
      rw [← h.2.1]

/-- `_discrete_line_search` never returns a value below its input value. -/
theorem discrete_line_search_mono (acqf : Vec → ℚ) (brentX : ℚ) (p : Vec)
    (fval : ℚ) (paramIdx : ℕ) (grids : List ℚ) (q : Vec) (g : ℚ) (b : Bool)
    (h : discrete_line_search acqf brentX p fval paramIdx grids = .ok (q, g, b)) :
    fval ≤ g := by
  unfold discrete_line_search at h
  split at h
  · simp only [Except.ok.injEq, Prod.mk.injEq] at h
    rw [← h.2.1]
  · split at h
    · exact Except.noConfusion h
    · split at h
      · rename_i hcond
        simp only [Except.ok.injEq, Prod.mk.injEq] at h
        rw [← h.2.1]
        exact hcond.2.le
      · simp only [Except.ok.injEq, Prod.mk.injEq] at h
        rw [← h.2.1]

/-- `_local_search_discrete` never returns a value below its input value. -/
theorem local_search_discrete_mono (acqf : Vec → ℚ) (brentX : ℚ) (p : Vec)
    (fval : ℚ) (it : DiscreteItem) (q : Vec) (g : ℚ) (b : Bool)
    (h : local_search_discrete acqf brentX p fval it = .ok (q, g, b)) :
    fval ≤ g := by
  unfold local_search_discrete at h
  split at h
  · exact exhaustive_search_mono acqf p fval it.idx it.choices q g b h
  · exact discrete_line_search_mono acqf brentX p fval it.idx it.choices q g b h

/-- The discrete sweep never returns a value below the state it starts
from, on either kind of outcome. -/
theorem sweepDiscrete_mono (acqf : Vec → ℚ) (brent : Vec → ℕ → ℚ) :
    ∀ (items : List DiscreteItem) (st : LSState)
      (r : Sum (Vec × ℚ) LSState),
      sweepDiscrete acqf brent items st = .ok r →
      st.f ≤ Sum.elim (fun z => z.2) (fun st1 => st1.f) r
  | [], st, r, h => by
    unfold sweepDiscrete at h
    simp only [Except.ok.injEq] at h
    rw [← h]
    exact le_refl _
  | it :: rest, st, r, h => by
    unfold sweepDiscrete at h
    split at h
    · simp only [Except.ok.injEq] at h
      rw [← h]
      exact le_refl _
    · split at h
      · exact Except.noConfusion h
      · rename_i t p f upd hls
        have h1 : st.f ≤ f :=
          local_search_discrete_mono acqf (brent st.p it.idx) st.p st.f it
            p f upd hls
        have h2 := sweepDiscrete_mono acqf brent rest
          ⟨if upd then LastChanged.disc it.idx else st.lc, p, f⟩ r h
        exact le_trans h1 h2

/-- One outer sweep never returns a value below the state it starts from,
on either kind of outcome. -/
theorem sweepOnce_mono (acqf : Vec → ℚ) (lbfgs : Vec → LbfgsResult)
    (brent : Vec → ℕ → ℚ) (contIdx : List ℕ) (lengthscale : List ℚ)
    (items : List DiscreteItem) (st : LSState)
    (r : Sum (Vec × ℚ × ExitKind) LSState)
    (h : sweepOnce acqf lbfgs brent contIdx lengthscale items st = .ok r) :
    st.f ≤ Sum.elim (fun z => z.2.1) (fun st1 => st1.f) r := by
  unfold sweepOnce at h
  split at h
  · simp only [Except.ok.injEq] at h
    rw [← h]
    exact le_refl _
  · have hga := gradient_ascent_mono contIdx lengthscale (lbfgs st.p) st.p st.f
    split at h
    · exact Except.noConfusion h
    · rename_i q g hsd
      simp only [Except.ok.injEq] at h
      rw [← h]
      have h2 := sweepDiscrete_mono acqf brent items _ _ hsd
      exact le_trans hga h2
    · rename_i st1 hsd
      have h2 := sweepDiscrete_mono acqf brent items _ _ hsd
      split at h
      · simp only [Except.ok.injEq] at h
        rw [← h]
        exact le_trans hga h2
      · simp only [Except.ok.injEq] at h
        rw [← h]
        exact le_trans hga h2

/-- The outer loop never returns a value below the state it starts from. -/
theorem lsLoop_mono (acqf : Vec → ℚ) (lbfgs : Vec → LbfgsResult)
    (brent : Vec → ℕ → ℚ) (contIdx : List ℕ) (lengthscale : List ℚ)
    (items : List DiscreteItem) :
    ∀ (fuel : ℕ) (st : LSState) (p : Vec) (f : ℚ) (e : ExitKind),
      lsLoop acqf lbfgs brent contIdx lengthscale items fuel st = .ok (p, f, e) →
      st.f ≤ f
  | 0, st, p, f, e, h => by
    unfold lsLoop at h
    simp only [Except.ok.injEq, Prod.mk.injEq] at h
    rw [← h.2.1]
  | Nat.succ n, st, p, f, e, h => by
    unfold lsLoop at h
    split at h
    · exact Except.noConfusion h
    · rename_i r hsw
      have := sweepOnce_mono acqf lbfgs brent contIdx lengthscale items st _ hsw
      simp only [Except.ok.injEq] at h
      rw [h] at this
      simpa using this
    · rename_i st1 hsw
      have h1 := sweepOnce_mono acqf lbfgs brent contIdx lengthscale items st _ hsw
      have h2 := lsLoop_mono acqf lbfgs brent contIdx lengthscale items n st1 p f e h
      exact le_trans (by simpa using h1) h2

/-- Unfolding lemma for one step of the outer loop. -/
theorem lsLoop_succ (acqf : Vec → ℚ) (lbfgs : Vec → LbfgsResult)
    (brent : Vec → ℕ → ℚ) (contIdx : List ℕ) (lengthscale : List ℚ)
    (items : List DiscreteItem) (n : ℕ) (st : LSState) :
    lsLoop acqf lbfgs brent contIdx lengthscale items (n + 1) st =
      match sweepOnce acqf lbfgs brent contIdx lengthscale items st with
      | .error e => .error e
      | .ok (.inl r) => .ok r
      | .ok (.inr st1) =>
        lsLoop acqf lbfgs brent contIdx lengthscale items n st1 := rfl

/-- The outer loop is the reference iteration of `sweepOnce`: it returns
the first early exit produced within `fuel` sweeps, and the carried state
(tagged `capReached`) when all `fuel` sweeps run without one. -/
theorem lsLoop_eq_sweepIter (acqf : Vec → ℚ) (lbfgs : Vec → LbfgsResult)
    (brent : Vec → ℕ → ℚ) (contIdx : List ℕ) (lengthscale : List ℚ)
    (items : List DiscreteItem) :
    ∀ (fuel : ℕ) (st : LSState),
      lsLoop acqf lbfgs brent contIdx lengthscale items fuel st =
        match sweepIter acqf lbfgs brent contIdx lengthscale items fuel st with
        | .error e => .error e
        | .ok (.inl r) => .ok r
        | .ok (.inr st1) => .ok (st1.p, st1.f, ExitKind.capReached)
  | 0, st => rfl
  | Nat.succ n, st => by
    unfold lsLoop sweepIter
    cases hsw : sweepOnce acqf lbfgs brent contIdx lengthscale items st with
    | error e => rfl
    | ok r =>
      cases r with
      | inl r1 => rfl
      | inr st1 =>
        exact lsLoop_eq_sweepIter acqf lbfgs brent contIdx lengthscale items
          n st1

/-- A single sweep never exits with the `capReached` tag, and a sweep that
continues leaves a state whose last-changed marker is no longer `noneYet`
(so the first-sweep no-improvement exit can only happen on the first
sweep). -/
theorem sweepOnce_exit_kinds (acqf : Vec → ℚ) (lbfgs : Vec → LbfgsResult)
    (brent : Vec → ℕ → ℚ) (contIdx : List ℕ) (lengthscale : List ℚ)
    (items : List DiscreteItem) (st : LSState) :
    (∀ q g, sweepOnce acqf lbfgs brent contIdx lengthscale items st
      ≠ .ok (.inl (q, g, ExitKind.capReached))) ∧
    (∀ st1, sweepOnce acqf lbfgs brent contIdx lengthscale items st
      = .ok (.inr st1) → st1.lc ≠ LastChanged.noneYet) := by
  constructor
  · intro q g hcontra
    unfold sweepOnce at hcontra
    split at hcontra
    · simp at hcontra
    · split at hcontra
      · exact Except.noConfusion hcontra
      · simp at hcontra
      · split at hcontra
        · simp at hcontra
        · simp at hcontra
  · intro st1 h
    unfold sweepOnce at h
    split at h
    · simp at h
    · split at h
      · exact Except.noConfusion h
      · simp at h
      · split at h
        · simp at h
        · rename_i hne
          simp only [Except.ok.injEq, Sum.inr.injEq] at h
          rw [← h]
          exact hne

/-- If every discrete optimizer reports no improvement at `(p, f)`, the
discrete sweep from an unset marker passes through unchanged. -/
theorem sweepDiscrete_no_improvement (acqf : Vec → ℚ) (brent : Vec → ℕ → ℚ) :
    ∀ (items : List DiscreteItem) (p : Vec) (f : ℚ),
      (∀ it ∈ items,
        local_search_discrete acqf (brent p it.idx) p f it = .ok (p, f, false)) →
      sweepDiscrete acqf brent items ⟨LastChanged.noneYet, p, f⟩
        = .ok (.inr ⟨LastChanged.noneYet, p, f⟩)
  | [], _, _, _ => rfl
  | it :: rest, p, f, h => by
    unfold sweepDiscrete
    rw [if_neg (by simp)]
    rw [h it (List.mem_cons_self it rest)]
    exact sweepDiscrete_no_improvement acqf brent rest p f
      (fun it2 hit2 => h it2 (List.mem_cons_of_mem it hit2))

/-- Unfolding lemma for `argmaxIdx` when the tail has no maximum. -/
theorem argmaxIdx_cons_none (x : ℚ) (xs : List ℚ)
    (h : argmaxIdx xs = none) : argmaxIdx (x :: xs) = some 0 := by
  unfold argmaxIdx
  rw [h]

/-- Unfolding lemma for `argmaxIdx` when the tail has a maximum. -/
theorem argmaxIdx_cons_some (x : ℚ) (xs : List ℚ) (j : ℕ)
    (h : argmaxIdx xs = some j) :
    argmaxIdx (x :: xs)
      = if x < xs.getD j 0 then some (j + 1) else some 0 := by
  unfold argmaxIdx
  rw [h]

/-- `argmaxIdx` is `some` on every nonempty list. -/
theorem argmaxIdx_cons_ne_none (x : ℚ) (xs : List ℚ) :
    argmaxIdx (x :: xs) ≠ none := by
  cases hxs : argmaxIdx xs with
  | none => rw [argmaxIdx_cons_none x xs hxs]; simp
  | some j =>
    rw [argmaxIdx_cons_some x xs j hxs]
    intro hcontra
    split at hcontra <;> exact Option.noConfusion hcontra

/-- The element at the `argmaxIdx` position bounds every list element
(`np.argmax` returns the position of a maximum). -/
theorem argmaxIdx_spec : ∀ (l : List ℚ) (i : ℕ), argmaxIdx l = some i →
    ∀ q ∈ l, q ≤ l.getD i 0
  | [], _, h => by simp [argmaxIdx] at h
  | x :: xs, i, h => by
    intro q hq
    cases hxs : argmaxIdx xs with
    | none =>
      rw [argmaxIdx_cons_none x xs hxs] at h
      simp only [Option.some.injEq] at h
      subst h
      cases xs with
      | nil =>
        simp only [List.mem_singleton] at hq
        subst hq
        simp
      | cons y ys => exact absurd hxs (argmaxIdx_cons_ne_none y ys)
    | some j =>
      rw [argmaxIdx_cons_some x xs j hxs] at h
      split at h <;> simp only [Option.some.injEq] at h <;> subst h
      · rename_i hlt
        rw [List.getD_cons_succ]
        rcases List.mem_cons.mp hq with hq | hq
        · subst hq
          exact hlt.le
        · exact argmaxIdx_spec xs j hxs q hq
      · rename_i hlt
        rw [List.getD_cons_zero]
        rcases List.mem_cons.mp hq with hq | hq
        · subst hq
          exact le_refl _
        · exact le_trans (argmaxIdx_spec xs j hxs q hq) (not_lt.mp hlt)

/-- The multi-start loop never returns a value below its incumbent. -/
theorem run_local_searches_mono (acqf : Vec → ℚ) (lbfgs : Vec → LbfgsResult)
    (brent : Vec → ℕ → ℚ) (contIdx : List ℕ) (lengthscale : List ℚ)
    (items : List DiscreteItem) :
    ∀ (starts : List Vec) (best : Vec × ℚ) (x : Vec) (f : ℚ),
      run_local_searches acqf lbfgs brent contIdx lengthscale items starts
        best = .ok (x, f) → best.2 ≤ f
  | [], best, x, f, h => by
    unfold run_local_searches at h
    simp only [Except.ok.injEq] at h
    subst h
    exact le_refl _
  | xg :: rest, best, x, f, h => by
    unfold run_local_searches at h
    split at h
    · exact Except.noConfusion h
    · rename_i t x1 f1 e1 hls
      have h2 := run_local_searches_mono acqf lbfgs brent contIdx lengthscale
        items rest _ x f h
      by_cases hb : best.2 < f1
      · rw [if_pos hb] at h2
        exact le_trans hb.le h2
      · rw [if_neg hb] at h2
        exact h2

/-- `_exhaustive_search` can only raise the empty-argmax error. -/
theorem exhaustive_search_error (acqf : Vec → ℚ) (p : Vec) (fval : ℚ)
    (paramIdx : ℕ) (choices : List ℚ) (e : PyError)
    (h : exhaustive_search acqf p fval paramIdx choices = .error e) :
    e = PyError.emptyArgmax := by
  unfold exhaustive_search at h
  split at h
  · injection h with h1
    exact h1.symm
  · split at h <;> exact Except.noConfusion h

/-- `_discrete_line_search` can only raise the on-grid assertion error. -/
theorem discrete_line_search_error (acqf : Vec → ℚ) (brentX : ℚ) (p : Vec)
    (fval : ℚ) (paramIdx : ℕ) (grids : List ℚ) (e : PyError)
    (h : discrete_line_search acqf brentX p fval paramIdx grids = .error e) :
    e = PyError.gridAssert := by
  unfold discrete_line_search at h
  split at h
  · exact Except.noConfusion h
  · split at h
    · injection h with h1
      exact h1.symm
    · split at h <;> exact Except.noConfusion h

/-- `_local_search_discrete` can only raise the discrete optimizers'
errors. -/
theorem local_search_discrete_error (acqf : Vec → ℚ) (brentX : ℚ) (p : Vec)
    (fval : ℚ) (it : DiscreteItem) (e : PyError)
    (h : local_search_discrete acqf brentX p fval it = .error e) :
    e = PyError.emptyArgmax ∨ e = PyError.gridAssert := by
  unfold local_search_discrete at h
  split at h
  · exact Or.inl (exhaustive_search_error acqf p fval it.idx it.choices e h)
  · exact Or.inr
      (discrete_line_search_error acqf brentX p fval it.idx it.choices e h)

/-- The discrete sweep can only raise the discrete optimizers' errors. -/
theorem sweepDiscrete_error (acqf : Vec → ℚ) (brent : Vec → ℕ → ℚ) :
    ∀ (items : List DiscreteItem) (st : LSState) (e : PyError),
      sweepDiscrete acqf brent items st = .error e →
      e = PyError.emptyArgmax ∨ e = PyError.gridAssert
  | [], st, e, h => by
    unfold sweepDiscrete at h
    exact Except.noConfusion h
  | it :: rest, st, e, h => by
    unfold sweepDiscrete at h
    split at h
    · exact Except.noConfusion h
    · split at h
      · rename_i e1 hls
        injection h with h1
        rw [← h1]
        exact local_search_discrete_error acqf (brent st.p it.idx) st.p st.f
          it e1 hls
      · exact sweepDiscrete_error acqf brent rest _ e h

/-- One sweep can only raise the discrete optimizers' errors. -/
theorem sweepOnce_error (acqf : Vec → ℚ) (lbfgs : Vec → LbfgsResult)
    (brent : Vec → ℕ → ℚ) (contIdx : List ℕ) (lengthscale : List ℚ)
    (items : List DiscreteItem) (st : LSState) (e : PyError)
    (h : sweepOnce acqf lbfgs brent contIdx lengthscale items st = .error e) :
    e = PyError.emptyArgmax ∨ e = PyError.gridAssert := by
  unfold sweepOnce at h
  split at h
  · exact Except.noConfusion h
  · split at h
    · rename_i e1 hsd
      injection h with h1
      rw [← h1]
      exact sweepDiscrete_error acqf brent items _ e1 hsd
    · exact Except.noConfusion h
    · split at h <;> exact Except.noConfusion h

/-- The outer loop can only raise the discrete optimizers' errors. -/
theorem lsLoop_error (acqf : Vec → ℚ) (lbfgs : Vec → LbfgsResult)
    (brent : Vec → ℕ → ℚ) (contIdx : List ℕ) (lengthscale : List ℚ)
    (items : List DiscreteItem) :
    ∀ (fuel : ℕ) (st : LSState) (e : PyError),
      lsLoop acqf lbfgs brent contIdx lengthscale items fuel st = .error e →
      e = PyError.emptyArgmax ∨ e = PyError.gridAssert
  | 0, st, e, h => by
    unfold lsLoop at h
    exact Except.noConfusion h
  | Nat.succ n, st, e, h => by
    unfold lsLoop at h
    split at h
    · rename_i e1 hsw
      injection h with h1
      rw [← h1]
      exact sweepOnce_error acqf lbfgs brent contIdx lengthscale items st
        e1 hsw
    · exact Except.noConfusion h
    · exact lsLoop_error acqf lbfgs brent contIdx lengthscale items n _ e h

/-- The multi-start loop can only raise the discrete optimizers' errors. -/
theorem run_local_searches_error (acqf : Vec → ℚ) (lbfgs : Vec → LbfgsResult)
    (brent : Vec → ℕ → ℚ) (contIdx : List ℕ) (lengthscale : List ℚ)
    (items : List DiscreteItem) :
    ∀ (starts : List Vec) (best : Vec × ℚ) (e : PyError),
      run_local_searches acqf lbfgs brent contIdx lengthscale items starts
        best = .error e →
      e = PyError.emptyArgmax ∨ e = PyError.gridAssert
  | [], best, e, h => by
    unfold run_local_searches at h
    exact Except.noConfusion h
  | xg :: rest, best, e, h => by
    unfold run_local_searches at h
    split at h
    · rename_i e1 hls
      injection h with h1
      rw [← h1]
      exact lsLoop_error acqf lbfgs brent contIdx lengthscale items 100 _
        e1 hls
    · exact run_local_searches_error acqf lbfgs brent contIdx lengthscale
        items rest _ e h

/-- `argmaxIdx` of a constant list is the first position. -/
theorem argmaxIdx_replicate : ∀ (n : ℕ) (c : ℚ),
    argmaxIdx (List.replicate (n + 1) c) = some 0
  | 0, c => rfl
  | Nat.succ n, c => by
    rw [List.replicate_succ]
    rw [argmaxIdx_cons_some c (List.replicate (n + 1) c) 0
      (argmaxIdx_replicate n c)]
    have hgd : (List.replicate (n + 1) c).getD 0 0 = c := by
      rw [List.replicate_succ]
      rfl
    simp [hgd]

/-- With no discrete items and no continuous indices, a local search is the
identity on its start point. -/
theorem local_search_no_items (acqf : Vec → ℚ) (lbfgs : Vec → LbfgsResult)
    (brent : Vec → ℕ → ℚ) (n : ℕ) (p : Vec) :
    local_search_mixed acqf lbfgs brent [] [] [] (n + 1) p
      = .ok (p, acqf p, ExitKind.neverImproved) := rfl

/-! Claim theorems. -/

/-- Claim C2: for every start vector, the coordinate-descent driver
`local_search_mixed` returns an acquisition value at least the evaluated
value of its input vector, whichever exit (convergence, first-sweep
no-improvement, or the iteration cap) produced the result. -/
theorem local_search_never_regresses (acqf : Vec → ℚ)
    (lbfgs : Vec → LbfgsResult) (brent : Vec → ℕ → ℚ) (contIdx : List ℕ)
    (lengthscale : List ℚ) (items : List DiscreteItem) (maxIter : ℕ)
    (p0 : Vec) (p : Vec) (f : ℚ) (e : ExitKind)
    (h : local_search_mixed acqf lbfgs brent contIdx lengthscale items
      maxIter p0 = .ok (p, f, e)) :
    acqf p0 ≤ f :=
  lsLoop_mono acqf lbfgs brent contIdx lengthscale items maxIter
    ⟨LastChanged.noneYet, p0, acqf p0⟩ p f e h

/-- Witness for `local_search_never_regresses` on a trivial concrete
configuration (no continuous indices, no discrete items). -/
theorem local_search_never_regresses_witness : constAcqf [0] ≤ 5 :=
  local_search_never_regresses constAcqf idleLbfgs zeroBrent [] [] [] 1
    [0] [0] 5 ExitKind.neverImproved rfl

/-- Claim C7: the coordinate-descent driver is exactly the iteration of
single sweeps: it returns at the first early exit (either the check that
the group about to be optimized is the one that produced the most recent
improvement — `cycleComplete` — or a completed sweep with the last-changed
marker still unset — `neverImproved`), and otherwise performs exactly
`fuel` (= `max_iter`, default 100) sweeps and returns the carried current
best tagged `capReached`, the case in which the source logs its non-fatal
warning.  Moreover a single sweep never produces the cap tag itself, and
any continuing sweep leaves the marker set, so the `neverImproved` exit
can only fire after the first sweep. -/
theorem local_search_loop_characterization (acqf : Vec → ℚ)
    (lbfgs : Vec → LbfgsResult) (brent : Vec → ℕ → ℚ) (contIdx : List ℕ)
    (lengthscale : List ℚ) (items : List DiscreteItem) (fuel : ℕ)
    (st : LSState) :
    (lsLoop acqf lbfgs brent contIdx lengthscale items fuel st =
      match sweepIter acqf lbfgs brent contIdx lengthscale items fuel st with
      | .error e => .error e
      | .ok (.inl r) => .ok r
      | .ok (.inr st1) => .ok (st1.p, st1.f, ExitKind.capReached)) ∧
    (∀ q g, sweepOnce acqf lbfgs brent contIdx lengthscale items st
      ≠ .ok (.inl (q, g, ExitKind.capReached))) ∧
    (∀ st1, sweepOnce acqf lbfgs brent contIdx lengthscale items st
      = .ok (.inr st1) → st1.lc ≠ LastChanged.noneYet) :=
  ⟨lsLoop_eq_sweepIter acqf lbfgs brent contIdx lengthscale items fuel st,
   sweepOnce_exit_kinds acqf lbfgs brent contIdx lengthscale items st⟩

/-- Witness for `local_search_loop_characterization`: a concrete
continuing sweep (gradient ascent improves from `[1]` to `[1/2]`) whose
resulting marker is `cont`, not `noneYet`. -/
theorem local_search_loop_characterization_witness :
    (⟨LastChanged.cont, [1/2], 1/2⟩ : LSState).lc ≠ LastChanged.noneYet :=
  (local_search_loop_characterization oneMinusAcqf halvingLbfgs zeroBrent
    [0] [1] [] 1 ⟨LastChanged.noneYet, [1], 0⟩).2.2
    ⟨LastChanged.cont, [1/2], 1/2⟩
    (by
      norm_num [sweepOnce, sweepDiscrete, gradient_ascent, oneMinusAcqf,
        halvingLbfgs, setIndices]
      simp)

/-- Claim C8 counterexample: re-running the coordinate-descent driver on
its own output can change both the vector and the value.  The solver
oracle `halvingLbfgs` is consistent with the documented solver contract
(feasible point, its true objective value, one completed iteration), yet
when restarted from the point it previously returned it improves further:
the first run from `[1]` returns `([1/2], 1/2)` and the run from `[1/2]`
returns `([1/4], 3/4)`. -/
theorem local_search_not_idempotent_counterexample :
    local_search_mixed oneMinusAcqf halvingLbfgs zeroBrent [0] [1] [] 100 [1]
      = .ok ([1/2], 1/2, ExitKind.cycleComplete) ∧
    local_search_mixed oneMinusAcqf halvingLbfgs zeroBrent [0] [1] [] 100 [1/2]
      = .ok ([1/4], 3/4, ExitKind.cycleComplete) ∧
    (1 : ℚ)/2 ≠ 3/4 := by
  have h1 : sweepOnce oneMinusAcqf halvingLbfgs zeroBrent [0] [1] []
      ⟨LastChanged.noneYet, [1], 0⟩
      = .ok (.inr ⟨LastChanged.cont, [1/2], 1/2⟩) := by
    norm_num [sweepOnce, sweepDiscrete, gradient_ascent, oneMinusAcqf,
      halvingLbfgs, setIndices]
    simp
  have h2 : sweepOnce oneMinusAcqf halvingLbfgs zeroBrent [0] [1] []
      ⟨LastChanged.cont, [1/2], 1/2⟩
      = .ok (.inl ([1/2], 1/2, ExitKind.cycleComplete)) := rfl
  have h3 : sweepOnce oneMinusAcqf halvingLbfgs zeroBrent [0] [1] []
      ⟨LastChanged.noneYet, [1/2], 1/2⟩
      = .ok (.inr ⟨LastChanged.cont, [1/4], 3/4⟩) := by
    norm_num [sweepOnce, sweepDiscrete, gradient_ascent, oneMinusAcqf,
      halvingLbfgs, setIndices]
    simp
  have h4 : sweepOnce oneMinusAcqf halvingLbfgs zeroBrent [0] [1] []
      ⟨LastChanged.cont, [1/4], 3/4⟩
      = .ok (.inl ([1/4], 3/4, ExitKind.cycleComplete)) := rfl
  refine ⟨?_, ?_, by norm_num⟩
  · have hst : oneMinusAcqf [1] = 0 := by norm_num [oneMinusAcqf]
    unfold local_search_mixed
    rw [hst, show (100 : ℕ) = 99 + 1 from rfl, lsLoop_succ, h1]
    show lsLoop oneMinusAcqf halvingLbfgs zeroBrent [0] [1] [] 99
      ⟨LastChanged.cont, [1/2], 1/2⟩ = _
    rw [show (99 : ℕ) = 98 + 1 from rfl, lsLoop_succ, h2]
  · have hst : oneMinusAcqf [1/2] = 1/2 := by norm_num [oneMinusAcqf]
    unfold local_search_mixed
    rw [hst, show (100 : ℕ) = 99 + 1 from rfl, lsLoop_succ, h3]
    show lsLoop oneMinusAcqf halvingLbfgs zeroBrent [0] [1] [] 99
      ⟨LastChanged.cont, [1/4], 3/4⟩ = _
    rw [show (99 : ℕ) = 98 + 1 from rfl, lsLoop_succ, h4]

/-- Claim C8 (amended): a vector at which every sub-optimizer reports no
improvement is a fixed point of the coordinate-descent driver: the driver
returns it unchanged with its evaluated value via the first-sweep
no-improvement exit.  The driver's own output need not satisfy this
premise — the external solver may improve again when restarted from the
returned point (see the counterexample) — so idempotence holds under this
stability premise, not unconditionally. -/
theorem local_search_fixed_point (acqf : Vec → ℚ)
    (lbfgs : Vec → LbfgsResult) (brent : Vec → ℕ → ℚ) (contIdx : List ℕ)
    (lengthscale : List ℚ) (items : List DiscreteItem) (maxIter : ℕ)
    (p : Vec) (hmax : 1 ≤ maxIter)
    (hga : gradient_ascent contIdx lengthscale (lbfgs p) p (acqf p)
      = (p, acqf p, false))
    (hdisc : ∀ it ∈ items,
      local_search_discrete acqf (brent p it.idx) p (acqf p) it
        = .ok (p, acqf p, false)) :
    local_search_mixed acqf lbfgs brent contIdx lengthscale items maxIter p
      = .ok (p, acqf p, ExitKind.neverImproved) := by
  have hsw : sweepOnce acqf lbfgs brent contIdx lengthscale items
      ⟨LastChanged.noneYet, p, acqf p⟩
      = .ok (.inl (p, acqf p, ExitKind.neverImproved)) := by
    unfold sweepOnce
    rw [if_neg (by simp)]
    rw [hga]
    rw [show (⟨if (p, acqf p, false).2.2 then LastChanged.cont
        else LastChanged.noneYet, (p, acqf p, false).1,
        (p, acqf p, false).2.1⟩ : LSState)
      = ⟨LastChanged.noneYet, p, acqf p⟩ from rfl]
    rw [sweepDiscrete_no_improvement acqf brent items p (acqf p) hdisc]
    simp
  cases maxIter with
  | zero => omega
  | succ n =>
    unfold local_search_mixed
    rw [lsLoop_succ, hsw]

/-- Witness for `local_search_fixed_point` on a trivial concrete
configuration. -/
theorem local_search_fixed_point_witness :
    local_search_mixed constAcqf idleLbfgs zeroBrent [] [] [] 1 [0]
      = .ok ([0], constAcqf [0], ExitKind.neverImproved) :=
  local_search_fixed_point constAcqf idleLbfgs zeroBrent [] [] [] 1 [0]
    (by decide) rfl (by simp)

/-- Claim C4 counterexample: the spec says the snap of `find_nearest_index`
breaks exact-distance ties toward the lower index.  At `grids = [0, 2]`,
query `x = 1`, both bracketing grid points are at distance 1, the lower
index is 0, yet the code returns index 1. -/
theorem find_nearest_index_tie_counterexample :
    |(1 : ℚ) - 0| = |(1 : ℚ) - 2| ∧ find_nearest_index [0, 2] 1 ≠ 0 := by
  constructor
  · norm_num
  · norm_num [find_nearest_index, clipIdx, searchsorted, List.filter]

/-- Claim C4 (amended): when the two bracketing grid points are at exactly
equal distance from the query, `find_nearest_index` breaks the tie toward
the **higher** bracket index `i` (the strict `<` test fails on equality). -/
theorem find_nearest_index_tie_upper (grids : List ℚ) (x : ℚ)
    (h : |x - grids.getD (clipIdx grids x - 1) 0|
       = |x - grids.getD (clipIdx grids x) 0|) :
    find_nearest_index grids x = clipIdx grids x := by
  unfold find_nearest_index
  rw [h, if_neg (lt_irrefl _)]

/-- Witness for `find_nearest_index_tie_upper` at `grids = [0, 2]`,
`x = 1`. -/
theorem find_nearest_index_tie_upper_witness :
    find_nearest_index [0, 2] 1 = 1 := by
  have h := find_nearest_index_tie_upper [0, 2] 1
    (by norm_num [clipIdx, searchsorted, List.filter])
  rw [h]
  norm_num [clipIdx, searchsorted, List.filter]

/-- Claim C6: `_gradient_ascent` reports an improvement exactly when the
continuous index set is nonempty, the recovered (un-negated) solver value
strictly exceeds the input value, and the solver completed at least one
iteration; whenever the flag is not set, the input vector and value are
returned unchanged. -/
theorem gradient_ascent_accept_iff (contIdx : List ℕ) (lengthscale : List ℚ)
    (res : LbfgsResult) (p : Vec) (fval : ℚ) :
    ((gradient_ascent contIdx lengthscale res p fval).2.2 = true ↔
      contIdx ≠ [] ∧ fval < -res.negFval ∧ 0 < res.nit) ∧
    ((gradient_ascent contIdx lengthscale res p fval).2.2 = false →
      gradient_ascent contIdx lengthscale res p fval = (p, fval, false)) := by
  unfold gradient_ascent
  by_cases hc : contIdx = []
  · simp [hc]
  · by_cases hcond : fval < -res.negFval ∧ 0 < res.nit
    · simp [hc, hcond]
    · simp [hc, hcond]

/-- Witness for `gradient_ascent_accept_iff`: a concrete accepted step. -/
theorem gradient_ascent_accept_iff_witness :
    (gradient_ascent [0] [1] ⟨[1/2], -1, 1⟩ [0] 0).2.2 = true :=
  (gradient_ascent_accept_iff [0] [1] ⟨[1/2], -1, 1⟩ [0] 0).1.mpr
    ⟨by decide, by norm_num, by decide⟩

/-- Claim C3 counterexample: the spec says a discrete index with a
single-element choice set is never optimized and every optimizer is a
no-op on it.  But `_exhaustive_search` (where the dispatcher sends every
singleton, since `1 ≤ 16`) filters out the current value, leaving an empty
candidate array, and `np.argmax` on it raises instead of returning the
input unchanged. -/
theorem singleton_choice_counterexample :
    exhaustive_search zeroAcqf [1/2] 0 0 [1/2] = .error .emptyArgmax ∧
    Except.error PyError.emptyArgmax
      ≠ (.ok ([1/2], 0, false) : Except PyError (Vec × ℚ × Bool)) := by
  constructor
  · norm_num [exhaustive_search, exhaustive_candidates, argmaxIdx, List.filter]
  · exact fun hcontra => Except.noConfusion hcontra

/-- Claim C3 (amended): a singleton choice set is a no-op in
`_discrete_line_search` (early return before anything else), but
`_local_search_discrete` always dispatches singletons to
`_exhaustive_search`, which raises (argmax of an empty candidate set)
whenever the coordinate equals the unique choice, rather than returning
the input unchanged. -/
theorem singleton_choice_behavior :
    (∀ (acqf : Vec → ℚ) (brentX : ℚ) (p : Vec) (fval : ℚ) (paramIdx : ℕ)
      (g : ℚ),
      discrete_line_search acqf brentX p fval paramIdx [g]
        = .ok (p, fval, false)) ∧
    (∀ (acqf : Vec → ℚ) (brentX : ℚ) (p : Vec) (fval : ℚ)
      (it : DiscreteItem), it.choices = [p.getD it.idx 0] →
      local_search_discrete acqf brentX p fval it
        = .error .emptyArgmax) := by
  constructor
  · intro acqf brentX p fval paramIdx g
    simp [discrete_line_search]
  · intro acqf brentX p fval it h
    have hdisp : it.scaleType = ScaleType.categorical ∨ it.choices.length ≤ 16 := by
      rw [h]; right; norm_num
    unfold local_search_discrete
    rw [if_pos hdisp, h]
    unfold exhaustive_search
    rw [exhaustive_candidates_singleton]
    rfl

/-- Witness for `singleton_choice_behavior`: concrete singleton inputs for
both conjuncts. -/
theorem singleton_choice_behavior_witness :
    discrete_line_search zeroAcqf 0 [1/2] 0 0 [3/4] = .ok ([1/2], 0, false) ∧
    local_search_discrete zeroAcqf 0 [1/2] 0
      ⟨0, ScaleType.categorical, [1/2]⟩ = .error .emptyArgmax :=
  ⟨singleton_choice_behavior.1 zeroAcqf 0 [1/2] 0 0 (3/4),
   singleton_choice_behavior.2 zeroAcqf 0 [1/2] 0
     ⟨0, ScaleType.categorical, [1/2]⟩ (by norm_num)⟩

/-- Claim C10 counterexample: the spec claims every input whose coordinate
is not exactly on its nearest grid point makes `_discrete_line_search` fail
with an assertion error, but a single-point grid returns unchanged
*before* the assertion: coordinate `3/10`, grid `[1/2]`. -/
theorem line_search_off_grid_counterexample :
    [3/10].getD 0 0
      ≠ [(1 : ℚ)/2].getD (find_nearest_index [1/2] ([3/10].getD 0 0)) 0 ∧
    discrete_line_search zeroAcqf 0 [3/10] 0 0 [1/2]
      = .ok ([3/10], 0, false) := by
  constructor
  · norm_num [find_nearest_index, clipIdx, searchsorted, List.filter]
  · simp [discrete_line_search]

/-- Claim C10 (amended): for a grid with at least two points, an input
vector whose coordinate at the optimized index is not exactly its nearest
grid value makes `_discrete_line_search` fail with the assertion error
before anything else runs — the result is this error for every acquisition
evaluator and every Brent oracle outcome, so no evaluator call can have
happened. -/
theorem line_search_on_grid_precondition (acqf : Vec → ℚ) (brentX : ℚ)
    (p : Vec) (fval : ℚ) (paramIdx : ℕ) (grids : List ℚ)
    (h2 : 2 ≤ grids.length)
    (hoff : p.getD paramIdx 0
      ≠ grids.getD (find_nearest_index grids (p.getD paramIdx 0)) 0) :
    discrete_line_search acqf brentX p fval paramIdx grids
      = .error .gridAssert := by
  unfold discrete_line_search
  rw [if_neg (by omega), if_pos hoff]

/-- Witness for `line_search_on_grid_precondition`: coordinate `1/2` on
grid `[0, 1]`. -/
theorem line_search_on_grid_precondition_witness :
    discrete_line_search zeroAcqf 0 [1/2] 0 0 [0, 1] = .error .gridAssert :=
  line_search_on_grid_precondition zeroAcqf 0 [1/2] 0 0 [0, 1]
    (by decide) (by norm_num [find_nearest_index, clipIdx, searchsorted, List.filter])

/-- `local_search_no_items` specialized to the hard-coded iteration count
used by `optimize_acqf_mixed`. -/
theorem local_search_no_items_100 (acqf : Vec → ℚ) (lbfgs : Vec → LbfgsResult)
    (brent : Vec → ℕ → ℚ) (p : Vec) :
    local_search_mixed acqf lbfgs brent [] [] [] 100 p
      = .ok (p, acqf p, ExitKind.neverImproved) :=
  local_search_no_items acqf lbfgs brent 99 p

/-- Claim C1: whenever `optimize_acqf_mixed` returns a value (the
seed-count precondition holds and no local search raised), that value is
at least every acquisition value of the directly sampled pool: the
incumbent starts at the pool maximum and is only ever replaced by strictly
better local-search results. -/
theorem optimize_acqf_mixed_dominates (acqf : Vec → ℚ) (expF : ℚ → ℚ)
    (lbfgs : Vec → LbfgsResult) (brent : Vec → ℕ → ℚ) (contIdx : List ℕ)
    (lengthscale : List ℚ) (items : List DiscreteItem)
    (givenInitialXs : List Vec) (nLocalSearch : ℤ) (sampledXs : List Vec)
    (remainingIdxs : List ℕ) (x : Vec) (f : ℚ)
    (h : optimize_acqf_mixed acqf expF lbfgs brent contIdx lengthscale items
      givenInitialXs nLocalSearch sampledXs remainingIdxs = .ok (x, f)) :
    ∀ q ∈ sampledXs.map acqf, q ≤ f := by
  intro q hq
  unfold optimize_acqf_mixed at h
  split at h
  · split at h
    · exact Except.noConfusion h
    · rename_i maxI hmax
      split at h
      · exact Except.noConfusion h
      · have hrun := run_local_searches_mono acqf lbfgs brent contIdx
          lengthscale items _ _ x f h
        have hspec := argmaxIdx_spec (sampledXs.map acqf) maxI hmax q hq
        exact le_trans hspec hrun
  · exact Except.noConfusion h

/-- Witness for `optimize_acqf_mixed_dominates`: a two-point pool with
values 0 and 1; the returned value 1 dominates the sampled value 0. -/
theorem optimize_acqf_mixed_dominates_witness : firstCoordAcqf [0] ≤ 1 :=
  optimize_acqf_mixed_dominates firstCoordAcqf oneExp idleLbfgs zeroBrent
    [] [] [] [] 2 [[0], [1]] [0] [1] 1
    (by norm_num [optimize_acqf_mixed, argmaxIdx, softmax_probs,
      softmax_weights, oneExp, firstCoordAcqf, run_local_searches,
      local_search_no_items_100, List.set])
    (firstCoordAcqf [0]) (List.mem_map_of_mem firstCoordAcqf (by simp))

/-- Claim C5: the seed-count assertion of `optimize_acqf_mixed` fails —
for every acquisition evaluator, so before any evaluation can depend on
one — exactly when `len(given_initial_xs) > n_local_search - 1`; when
`len(given_initial_xs) ≤ n_local_search - 1` this assertion passes: no
later failure of the function is the seed assertion. -/
theorem optimize_acqf_mixed_seed_assert (acqf : Vec → ℚ) (expF : ℚ → ℚ)
    (lbfgs : Vec → LbfgsResult) (brent : Vec → ℕ → ℚ) (contIdx : List ℕ)
    (lengthscale : List ℚ) (items : List DiscreteItem)
    (givenInitialXs : List Vec) (nLocalSearch : ℤ) (sampledXs : List Vec)
    (remainingIdxs : List ℕ) :
    (nLocalSearch - 1 < (givenInitialXs.length : ℤ) →
      optimize_acqf_mixed acqf expF lbfgs brent contIdx lengthscale items
        givenInitialXs nLocalSearch sampledXs remainingIdxs
        = .error .seedAssert) ∧
    ((givenInitialXs.length : ℤ) ≤ nLocalSearch - 1 →
      optimize_acqf_mixed acqf expF lbfgs brent contIdx lengthscale items
        givenInitialXs nLocalSearch sampledXs remainingIdxs
        ≠ .error .seedAssert) := by
  constructor
  · intro hgt
    unfold optimize_acqf_mixed
    rw [if_neg (not_le.mpr hgt)]
  · intro hle hcontra
    unfold optimize_acqf_mixed at hcontra
    rw [if_pos hle] at hcontra
    split at hcontra
    · injection hcontra with h1
      exact PyError.noConfusion h1
    · split at hcontra
      · injection hcontra with h1
        exact PyError.noConfusion h1
      · rcases run_local_searches_error acqf lbfgs brent contIdx lengthscale
          items _ _ _ hcontra with h | h <;> exact PyError.noConfusion h

/-- Witness for `optimize_acqf_mixed_seed_assert`: two seed points with
`n_local_search = 2` violate the precondition and fail the assertion. -/
theorem optimize_acqf_mixed_seed_assert_witness :
    optimize_acqf_mixed zeroAcqf oneExp idleLbfgs zeroBrent [] [] []
      [[0], [0]] 2 [] [] = .error .seedAssert :=
  (optimize_acqf_mixed_seed_assert zeroAcqf oneExp idleLbfgs zeroBrent
    [] [] [] [[0], [0]] 2 [] []).1 (by norm_num)

/-- Claim C9 counterexample: with a single sampled pool point — all pool
values are then trivially equal — the maximizer weight is zeroed, the
weight vector sums to zero, and the normalization step fails (NaN
probabilities make the subsequent `rng.choice` raise) instead of yielding
a valid distribution. -/
theorem softmax_degenerate_counterexample :
    optimize_acqf_mixed zeroAcqf oneExp idleLbfgs zeroBrent [] [] [] [] 10
      [[0]] [] = .error .probsError := by
  norm_num [optimize_acqf_mixed, argmaxIdx, softmax_probs, softmax_weights,
    oneExp, zeroAcqf, List.set]

/-- Claim C9 (amended): with at least **two** pool points all sharing
exactly the same acquisition value, the softmax weighting step cannot
throw: the pool maximizer is position 0, its weight is forced to exactly
zero, and the remaining weights renormalize to the uniform distribution
`1/(n-1)` over the non-maximizer points, summing to one.  With exactly one
pool point the zeroed weights sum to zero and the normalization fails (see
the counterexample), so the claim needs the two-point floor. -/
theorem softmax_uniform_on_equal_values (expF : ℚ → ℚ) (c : ℚ) (n : ℕ)
    (h2 : 2 ≤ n) (hexp : expF 0 = 1) :
    argmaxIdx (List.replicate n c) = some 0 ∧
    softmax_probs expF (List.replicate n c) 0
      = some (0 :: List.replicate (n - 1) (1 / ((n : ℚ) - 1))) ∧
    (0 :: List.replicate (n - 1) (1 / ((n : ℚ) - 1))).sum = 1 := by
  obtain ⟨m, rfl⟩ : ∃ m, n = m + 2 := ⟨n - 2, by omega⟩
  have hcast : ((m + 2 : ℕ) : ℚ) - 1 = (m : ℚ) + 1 := by
    push_cast
    ring
  have hgd : (List.replicate (m + 2) c).getD 0 0 = c := by
    rw [List.replicate_succ]
    rfl
  have hw : softmax_weights expF (List.replicate (m + 2) c) 0
      = 0 :: List.replicate (m + 1) 1 := by
    unfold softmax_weights
    simp only [hgd]
    rw [List.replicate_succ, List.map_cons, List.map_replicate, sub_self,
      hexp]
    rfl
  have hsum : (0 :: List.replicate (m + 1) (1 : ℚ)).sum = (m : ℚ) + 1 := by
    rw [List.sum_cons, List.sum_replicate, nsmul_eq_mul, mul_one, zero_add]
    push_cast
    ring
  have hne : ((m : ℚ) + 1) ≠ 0 := by positivity
  refine ⟨argmaxIdx_replicate (m + 1) c, ?_, ?_⟩
  · unfold softmax_probs
    simp only [hw, hsum]
    rw [if_neg hne]
    simp only [List.map_cons, List.map_replicate, zero_div]
    rw [show m + 2 - 1 = m + 1 from rfl, hcast]
  · rw [show m + 2 - 1 = m + 1 from rfl, hcast]
    rw [List.sum_cons, List.sum_replicate, nsmul_eq_mul]
    push_cast
    field_simp

/-- Witness for `softmax_uniform_on_equal_values` at a two-point pool of
equal values. -/
theorem softmax_uniform_on_equal_values_witness :
    argmaxIdx (List.replicate 2 (0 : ℚ)) = some 0 ∧
    softmax_probs oneExp (List.replicate 2 (0 : ℚ)) 0
      = some (0 :: List.replicate (2 - 1) (1 / (((2 : ℕ) : ℚ) - 1))) ∧
    (0 :: List.replicate (2 - 1) (1 / (((2 : ℕ) : ℚ) - 1))).sum = 1 :=
  softmax_uniform_on_equal_values oneExp 0 2 (by decide) rfl

end OptimMixed
